import Mathlib

/-!
Verification of the `kms` crate: the `KeyManagementScheme` trait in
`src/lib.rs`.  The trait's provided (default) methods — `derive_many`,
`update_many`, `persist`, `load` — are the only executable code in the
repository; they are embedded here as functions that take the required
trait methods as explicit arguments, with `&mut self` translated to
state passing and `std::io` writers/readers translated to location
values threaded through the calls.  Rust's `Result<T, E>` becomes
`Except E T`.

The concrete behavior of `derive`, `update`, `commit` and the four
partition persistence methods is declared but not implemented in
`src/lib.rs`; where a claim depends on that behavior, a reference
manager is modelled from the specification (see `RefManager` below).
-/

set_option autoImplicit false

/-- Embedding of the provided method
`fn derive_many<I>(&mut self, keys: I) -> Vec<Self::Key>`
from `src/lib.rs`: `keys.into_iter().map(|key| self.derive(key)).collect()`.
The mutable borrow of `self` is threaded through the per-id calls from left
to right, exactly as Rust's `FnMut` closure does. -/
def derive_many {S KId K : Type} (derive : S → KId → K × S) : S → List KId → List K × S
  | s, [] => ([], s)
  | s, key :: keys =>
    let r := derive s key
    let rest := derive_many derive r.2 keys
    (r.1 :: rest.1, rest.2)

/-- Embedding of the provided method
`fn update_many<I>(&mut self, keys: I) -> Vec<Self::Key>`
from `src/lib.rs`: `keys.into_iter().map(|key| self.update(key)).collect()`. -/
def update_many {S KId K : Type} (update : S → KId → K × S) : S → List KId → List K × S
  | s, [] => ([], s)
  | s, key :: keys =>
    let r := update s key
    let rest := update_many update r.2 keys
    (r.1 :: rest.1, rest.2)

/-- Embedding of the provided method
`fn persist<V, W>(&self, pub_loc: &mut V, priv_loc: &mut W) -> Result<(), Self::Error>`
from `src/lib.rs`:
`self.persist_public_state(pub_loc)?; self.persist_private_state(priv_loc)?; Ok(())`.
A writer location is a value that the partition method maps to its
written successor; `Ok(())` with both locations mutated in place becomes
`Except.ok` of the pair of final locations. -/
def persist {S V W E : Type}
    (persist_public_state : S → V → Except E V)
    (persist_private_state : S → W → Except E W)
    (s : S) (pub_loc : V) (priv_loc : W) : Except E (V × W) :=
  match persist_public_state s pub_loc with
  | .error e => .error e
  | .ok pub_loc' =>
    match persist_private_state s priv_loc with
    | .error e => .error e
    | .ok priv_loc' => .ok (pub_loc', priv_loc')

/-- Embedding of the provided method
`fn load<Q, R>(&mut self, pub_loc: &mut Q, priv_loc: &mut R) -> Result<(), Self::Error>`
from `src/lib.rs`:
`self.load_private_state(priv_loc)?; self.load_public_state(pub_loc)?; Ok(())`.
Each partition method mutates both `self` and its reader location, so it
returns the new state paired with the remaining location. -/
def load {S Q R E : Type}
    (load_public_state : S → Q → Except E (S × Q))
    (load_private_state : S → R → Except E (S × R))
    (s : S) (pub_loc : Q) (priv_loc : R) : Except E (S × Q × R) :=
  match load_private_state s priv_loc with
  | .error e => .error e
  | .ok (s1, priv_loc') =>
    match load_public_state s1 pub_loc with
    | .error e => .error e
    | .ok (s2, pub_loc') => .ok (s2, pub_loc', priv_loc')

/-- The two partition calls `persist` can make, in the order the trait
names them. -/
inductive PersistCall : Type
  | publicWrite
  | privateWrite
  deriving DecidableEq, Repr

/-- The two partition calls `load` can make. -/
inductive LoadCall : Type
  | publicRead
  | privateRead
  deriving DecidableEq, Repr

/-- The control flow of `persist` from `src/lib.rs`, instrumented with the
sequence of partition-method invocations it performs.  The result
component agrees with `persist` (proved in `persistTraced_result`). -/
def persistTraced {S V W E : Type}
    (persist_public_state : S → V → Except E V)
    (persist_private_state : S → W → Except E W)
    (s : S) (pub_loc : V) (priv_loc : W) : List PersistCall × Except E (V × W) :=
  match persist_public_state s pub_loc with
  | .error e => ([.publicWrite], .error e)
  | .ok pub_loc' =>
    match persist_private_state s priv_loc with
    | .error e => ([.publicWrite, .privateWrite], .error e)
    | .ok priv_loc' => ([.publicWrite, .privateWrite], .ok (pub_loc', priv_loc'))

/-- The control flow of `load` from `src/lib.rs`, instrumented with the
sequence of partition-method invocations it performs.  The result
component agrees with `load` (proved in `loadTraced_result`). -/
def loadTraced {S Q R E : Type}
    (load_public_state : S → Q → Except E (S × Q))
    (load_private_state : S → R → Except E (S × R))
    (s : S) (pub_loc : Q) (priv_loc : R) : List LoadCall × Except E (S × Q × R) :=
  match load_private_state s priv_loc with
  | .error e => ([.privateRead], .error e)
  | .ok (s1, priv_loc') =>
    match load_public_state s1 pub_loc with
    | .error e => ([.privateRead, .publicRead], .error e)
    | .ok (s2, pub_loc') => ([.privateRead, .publicRead], .ok (s2, pub_loc', priv_loc'))

/-- One step of the specification's description of the batch variants:
take the accumulated results and the threaded state, run the per-id
operation on the current state, append its result. -/
def threadStep {S A B : Type} (f : S → A → B × S) (p : List B × S) (a : A) : List B × S :=
  let r := f p.2 a
  (p.1 ++ [r.1], r.2)

/-- The specification's description of `derive_many`/`update_many`:
"mapping `derive` over `ids` in the given order", collecting the per-id
results in input order while the state is threaded through the calls
left to right.  Stated as a left fold so that it is a genuinely distinct
formulation from the structural recursion of `derive_many`. -/
def mapThreaded {S A B : Type} (f : S → A → B × S) (s : S) (xs : List A) : List B × S :=
  xs.foldl (threadStep f) ([], s)

/-- Instrumentation for the frame claim about empty batches: wrap a
per-id operation so that it counts how many times it is invoked. -/
def countCalls {S KId K : Type} (f : S → KId → K × S) : S × Nat → KId → K × (S × Nat) :=
  fun p key =>
    let r := f p.1 key
    (r.1, (r.2, p.2 + 1))

/-- Modelled from the spec: the error taxonomy of §7 (`UnknownId`,
`DeserializationError`, `IntegrityError`, `PersistenceError`,
`PreconditionViolated`).  The repository's trait leaves `type Error`
abstract and no concrete error type is under `src/`. -/
inductive RefError : Type
  | unknownId
  | deserializationError
  | integrityError
  | persistenceError
  | preconditionViolated
  deriving DecidableEq, Repr

/-- Modelled from the spec: the state of the generic key-lifecycle
manager of §2–§3, absent from `src/` (the repository holds only trait
declarations).  `keys` is the mapping from identifiers to current key
material (private state), `pending` the pending-revocation set, and
`ctr` a freshness counter (public metadata) from which new key material
is drawn on `update`. -/
structure RefManager : Type where
  keys : List (Nat × Nat)
  pending : List Nat
  ctr : Nat
  deriving DecidableEq, Repr

/-- Key lookup in the manager's association list. -/
def lookupId (id : Nat) : List (Nat × Nat) → Option Nat
  | [] => none
  | (i, k) :: rest => if i = id then some k else lookupId id rest

/-- Replace the key bound to `id`, or append a fresh binding. -/
def insertPair (id k : Nat) : List (Nat × Nat) → List (Nat × Nat)
  | [] => [(id, k)]
  | (i, k0) :: rest => if i = id then (id, k) :: rest else (i, k0) :: insertPair id k rest

/-- Add an id to the pending-revocation set if it is not already there. -/
def insertId (id : Nat) (l : List Nat) : List Nat :=
  if id ∈ l then l else id :: l

/-- Modelled from the spec: `derive(id) -> Result<Key, Error>` of §4.1 —
"returns the current key material for `id`, deterministically, without
mutating any persisted key material", failing with `UnknownId` for an
id never initialized.  `src/` declares only the infallible
`fn derive(&mut self, key: Self::KeyId) -> Self::Key` of one interface
revision; the fallible revision and every implementation are absent. -/
def RefManager.derive (m : RefManager) (id : Nat) : Except RefError (Nat × RefManager) :=
  match lookupId id m.keys with
  | none => .error .unknownId
  | some k => .ok (k, m)

/-- Modelled from the spec: `update(id) -> Result<Key, Error>` of §4.1 —
"produces new key material for `id`, replacing the logical association
from that point forward; returns the new key", with the id entering the
pending-revocation set until `commit`.  No implementation exists under
`src/`. -/
def RefManager.update (m : RefManager) (id : Nat) : Except RefError (Nat × RefManager) :=
  match lookupId id m.keys with
  | none => .error .unknownId
  | some _ =>
    .ok (m.ctr, ⟨insertPair id m.ctr m.keys, insertId id m.pending, m.ctr + 1⟩)

/-- Modelled from the spec: `commit(auxiliary_input) -> Vec<KeyId>` of
§4.1 — "finalizes all pending updates, returning the set of ids whose
prior keys are now guaranteed unrecoverable"; afterwards the pending
revocation set is empty.  The auxiliary input (a borrowed randomness
source) does not influence which ids are revoked.  `src/` declares only
`fn commit(&mut self)` of one interface revision; the commit-state
revision and every implementation are absent. -/
def RefManager.commit (m : RefManager) (_aux : Nat) : List Nat × RefManager :=
  (m.pending, { m with pending := [] })

/-- Modelled from the spec: `setup(init)` of §4.1, building a fresh
manager whose listed ids are immediately derivable.  No implementation
exists under `src/`. -/
def RefManager.setup (ids : List Nat) : RefManager :=
  ⟨ids.map (fun i => (i, 0)), [], 1⟩

/-- Flatten an association list into a byte stream. -/
def encodePairs : List (Nat × Nat) → List Nat
  | [] => []
  | (i, k) :: rest => i :: k :: encodePairs rest

/-- Parse a byte stream written by `encodePairs`. -/
def decodePairs : List Nat → Option (List (Nat × Nat))
  | [] => some []
  | [_] => none
  | i :: k :: rest => (decodePairs rest).map (fun l => (i, k) :: l)

/-- Modelled from the spec: `persist_public_state` of §4.1 for the
reference manager — writes the public metadata partition (the counter
and the pending set, data not requiring secure deletion) to the
caller-supplied sink.  `src/` only declares the method. -/
def RefManager.persist_public_state (m : RefManager) (loc : List Nat) :
    Except RefError (List Nat) :=
  .ok (loc ++ m.ctr :: m.pending)

/-- Modelled from the spec: `persist_private_state` of §4.1 for the
reference manager — writes the private partition (the key material that
must be securely deletable) to the caller-supplied sink.  `src/` only
declares the method. -/
def RefManager.persist_private_state (m : RefManager) (loc : List Nat) :
    Except RefError (List Nat) :=
  .ok (loc ++ encodePairs m.keys)

/-- Modelled from the spec: `load_public_state` of §4.1 for the
reference manager — consumes the public partition, failing with a
`DeserializationError` kind when the stored format is inconsistent.
`src/` only declares the method. -/
def RefManager.load_public_state (m : RefManager) (loc : List Nat) :
    Except RefError (RefManager × List Nat) :=
  match loc with
  | [] => .error .deserializationError
  | c :: rest => .ok ({ m with ctr := c, pending := rest }, [])

/-- Modelled from the spec: `load_private_state` of §4.1 for the
reference manager — consumes the private partition, failing with a
`DeserializationError` kind when the stored format is inconsistent.
`src/` only declares the method. -/
def RefManager.load_private_state (m : RefManager) (loc : List Nat) :
    Except RefError (RefManager × List Nat) :=
  match decodePairs loc with
  | none => .error .deserializationError
  | some ks => .ok ({ m with keys := ks }, [])

/-- A concrete public-partition writer that always fails, exercising the
error path of the composed `persist`. -/
def failingPublicWrite : Nat → Nat → Except Nat Nat :=
  fun _ _ => .error 3

/-- A concrete private-partition writer that always succeeds. -/
def succeedingPrivateWrite : Nat → Nat → Except Nat Nat :=
  fun _ w => .ok (w + 1)

/-- A concrete public-partition reader that always succeeds. -/
def succeedingPublicRead : Nat → Nat → Except Nat (Nat × Nat) :=
  fun s q => .ok (s + q, 0)

/-- A concrete private-partition reader that always succeeds. -/
def succeedingPrivateRead : Nat → Nat → Except Nat (Nat × Nat) :=
  fun s r => .ok (s + r, 0)

theorem persistTraced_result {S V W E : Type}
    (ppub : S → V → Except E V) (ppriv : S → W → Except E W)
    (s : S) (v : V) (w : W) :
    (persistTraced ppub ppriv s v w).2 = persist ppub ppriv s v w := by
  cases h1 : ppub s v with
  | error e => simp [persistTraced, persist, h1]
  | ok v' =>
    cases h2 : ppriv s w with
    | error e => simp [persistTraced, persist, h1, h2]
    | ok w' => simp [persistTraced, persist, h1, h2]

theorem loadTraced_result {S Q R E : Type}
    (lpub : S → Q → Except E (S × Q)) (lpriv : S → R → Except E (S × R))
    (s : S) (q : Q) (r : R) :
    (loadTraced lpub lpriv s q r).2 = load lpub lpriv s q r := by
  cases h1 : lpriv s r with
  | error e => simp [loadTraced, load, h1]
  | ok p =>
    obtain ⟨s1, r'⟩ := p
    cases h2 : lpub s1 q with
    | error e => simp [loadTraced, load, h1, h2]
    | ok p2 =>
      obtain ⟨s2, q'⟩ := p2
      simp [loadTraced, load, h1, h2]

theorem foldl_threadStep_shift {S A B : Type} (f : S → A → B × S) :
    ∀ (xs : List A) (acc : List B) (s : S),
      xs.foldl (threadStep f) (acc, s) =
        (acc ++ (xs.foldl (threadStep f) ([], s)).1, (xs.foldl (threadStep f) ([], s)).2) := by
  intro xs
  induction xs with
  | nil => intro acc s; simp
  | cons a xs ih =>
    intro acc s
    simp only [List.foldl_cons, threadStep, List.nil_append]
    rw [ih (acc ++ [(f s a).1]) (f s a).2, ih [(f s a).1] (f s a).2]
    simp

theorem update_many_eq_mapThreaded {S KId K : Type} (update : S → KId → K × S)
    (s : S) (keys : List KId) :
    update_many update s keys = mapThreaded update s keys := by
  induction keys generalizing s with
  | nil => rfl
  | cons key keys ih =>
    simp only [update_many, mapThreaded, List.foldl_cons]
    rw [show threadStep update ([], s) key = ([(update s key).1], (update s key).2) from rfl]
    rw [foldl_threadStep_shift update keys [(update s key).1] (update s key).2]
    rw [ih (update s key).2]
    simp [mapThreaded]

theorem update_many_length {S KId K : Type} (update : S → KId → K × S)
    (s : S) (keys : List KId) :
    (update_many update s keys).1.length = keys.length := by
  induction keys generalizing s with
  | nil => rfl
  | cons key keys ih =>
    simp [update_many, ih]

theorem decodePairs_encodePairs :
    ∀ l : List (Nat × Nat), decodePairs (encodePairs l) = some l := by
  intro l
  induction l with
  | nil => rfl
  | cons p rest ih =>
    obtain ⟨i, k⟩ := p
    simp [encodePairs, decodePairs, ih]

theorem lookupId_insertPair (id k : Nat) :
    ∀ l : List (Nat × Nat), lookupId id (insertPair id k l) = some k := by
  intro l
  induction l with
  | nil => simp [insertPair, lookupId]
  | cons p rest ih =>
    obtain ⟨i, k0⟩ := p
    by_cases h : i = id
    · simp [insertPair, lookupId, h]
    · simp [insertPair, lookupId, h, ih]

theorem lookupId_mem {id k : Nat} :
    ∀ {l : List (Nat × Nat)}, lookupId id l = some k → (id, k) ∈ l := by
  intro l
  induction l with
  | nil => intro h; simp [lookupId] at h
  | cons p rest ih =>
    obtain ⟨i, k0⟩ := p
    intro h
    by_cases hi : i = id
    · subst hi
      simp [lookupId] at h
      subst h
      exact List.mem_cons_self _ _
    · simp [lookupId, hi] at h
      exact List.mem_cons_of_mem _ (ih h)

/-- C4: for every list of ids and every manager state, `derive_many` as
provided by `src/lib.rs` is equivalent to mapping `derive` over the ids
in the given order — it returns the list of per-id derive results in
input order, with the manager state threaded through the calls from
left to right (`mapThreaded`). -/
theorem derive_many_eq_mapThreaded {S KId K : Type} (derive : S → KId → K × S)
    (s : S) (keys : List KId) :
    derive_many derive s keys = mapThreaded derive s keys := by
  induction keys generalizing s with
  | nil => rfl
  | cons key keys ih =>
    simp only [derive_many, mapThreaded, List.foldl_cons]
    rw [show threadStep derive ([], s) key = ([(derive s key).1], (derive s key).2) from rfl]
    rw [foldl_threadStep_shift derive keys [(derive s key).1] (derive s key).2]
    rw [ih (derive s key).2]
    simp [mapThreaded]

/-- C8: for every list of ids and every manager state, `update_many` as
provided by `src/lib.rs` equals mapping `update` over the ids in the
given order with the state threaded left to right, and the returned
vector has exactly as many keys as there are ids in the input. -/
theorem update_many_maps_update {S KId K : Type} (update : S → KId → K × S)
    (s : S) (keys : List KId) :
    update_many update s keys = mapThreaded update s keys ∧
    (update_many update s keys).1.length = keys.length :=
  ⟨update_many_eq_mapThreaded update s keys, update_many_length update s keys⟩

/-- C10: for the empty list of ids, `derive_many` and `update_many` from
`src/lib.rs` return the empty vector and leave the manager state
unchanged; instrumenting the per-id operation with a call counter shows
that no per-id `derive` or `update` is invoked. -/
theorem empty_batch_noop {S KId K : Type} (f g : S → KId → K × S) (s : S) :
    derive_many f s ([] : List KId) = ([], s) ∧
    update_many g s ([] : List KId) = ([], s) ∧
    (derive_many (countCalls f) (s, 0) ([] : List KId)).2.2 = 0 ∧
    (update_many (countCalls g) (s, 0) ([] : List KId)).2.2 = 0 :=
  ⟨rfl, rfl, rfl, rfl⟩

/-- C5: the composed `load` of `src/lib.rs` never loads the public
partition before the private partition — for every pair of sources its
first partition call is `load_private_state`, and `load_public_state`
is called only in the run where `load_private_state` succeeded.  The
instrumented control flow returns the same result as `load`. -/
theorem load_private_state_first {S Q R E : Type}
    (lpub : S → Q → Except E (S × Q)) (lpriv : S → R → Except E (S × R))
    (s : S) (q : Q) (r : R) :
    (loadTraced lpub lpriv s q r).1.head? = some LoadCall.privateRead ∧
    ((loadTraced lpub lpriv s q r).1 = [LoadCall.privateRead] ∨
      ((loadTraced lpub lpriv s q r).1 = [LoadCall.privateRead, LoadCall.publicRead] ∧
        ∃ x, lpriv s r = Except.ok x)) ∧
    (loadTraced lpub lpriv s q r).2 = load lpub lpriv s q r := by
  refine ⟨?_, ?_, loadTraced_result lpub lpriv s q r⟩
  · cases h1 : lpriv s r with
    | error e => simp [loadTraced, h1]
    | ok p =>
      obtain ⟨s1, r'⟩ := p
      cases h2 : lpub s1 q with
      | error e => simp [loadTraced, h1, h2]
      | ok p2 =>
        obtain ⟨s2, q'⟩ := p2
        simp [loadTraced, h1, h2]
  · cases h1 : lpriv s r with
    | error e => left; simp [loadTraced, h1]
    | ok p =>
      obtain ⟨s1, r'⟩ := p
      right
      refine ⟨?_, ⟨(s1, r'), rfl⟩⟩
      cases h2 : lpub s1 q with
      | error e => simp [loadTraced, h1, h2]
      | ok p2 =>
        obtain ⟨s2, q'⟩ := p2
        simp [loadTraced, h1, h2]

/-- C9: the composed `persist` of `src/lib.rs` fixes a concrete
partition order — for every pair of sinks its first partition call is
`persist_public_state`, the only possible call sequences are public
alone or public followed by private, and the private partition is never
written first.  The instrumented control flow returns the same result
as `persist`. -/
theorem persist_public_state_first {S V W E : Type}
    (ppub : S → V → Except E V) (ppriv : S → W → Except E W)
    (s : S) (v : V) (w : W) :
    (persistTraced ppub ppriv s v w).1.head? = some PersistCall.publicWrite ∧
    ((persistTraced ppub ppriv s v w).1 = [PersistCall.publicWrite] ∨
      (persistTraced ppub ppriv s v w).1 =
        [PersistCall.publicWrite, PersistCall.privateWrite]) ∧
    (persistTraced ppub ppriv s v w).2 = persist ppub ppriv s v w := by
  refine ⟨?_, ?_, persistTraced_result ppub ppriv s v w⟩
  · cases h1 : ppub s v with
    | error e => simp [persistTraced, h1]
    | ok v' =>
      cases h2 : ppriv s w with
      | error e => simp [persistTraced, h1, h2]
      | ok w' => simp [persistTraced, h1, h2]
  · cases h1 : ppub s v with
    | error e => left; simp [persistTraced, h1]
    | ok v' =>
      right
      cases h2 : ppriv s w with
      | error e => simp [persistTraced, h1, h2]
      | ok w' => simp [persistTraced, h1, h2]

/-- C6: the composed `persist` and `load` of `src/lib.rs` propagate
errors to the caller — if the first partition operation
(`persist_public_state` for `persist`, `load_private_state` for `load`)
returns an error `e`, the composed operation returns exactly `e` and
never invokes the second partition operation; if both partition
operations succeed, the composed operation returns `Ok`. -/
theorem composed_error_propagation {S V W Q R E : Type}
    (ppub : S → V → Except E V) (ppriv : S → W → Except E W)
    (lpub : S → Q → Except E (S × Q)) (lpriv : S → R → Except E (S × R))
    (s : S) (v : V) (w : W) (q : Q) (r : R) :
    (∀ e, ppub s v = Except.error e →
      persist ppub ppriv s v w = Except.error e ∧
      (persistTraced ppub ppriv s v w).1 = [PersistCall.publicWrite]) ∧
    (∀ v' w', ppub s v = Except.ok v' → ppriv s w = Except.ok w' →
      persist ppub ppriv s v w = Except.ok (v', w')) ∧
    (∀ e, lpriv s r = Except.error e →
      load lpub lpriv s q r = Except.error e ∧
      (loadTraced lpub lpriv s q r).1 = [LoadCall.privateRead]) ∧
    (∀ s1 r' s2 q', lpriv s r = Except.ok (s1, r') → lpub s1 q = Except.ok (s2, q') →
      load lpub lpriv s q r = Except.ok (s2, q', r')) := by
  refine ⟨?_, ?_, ?_, ?_⟩
  · intro e he
    constructor
    · simp [persist, he]
    · simp [persistTraced, he]
  · intro v' w' h1 h2
    simp [persist, h1, h2]
  · intro e he
    constructor
    · simp [load, he]
    · simp [loadTraced, he]
  · intro s1 r' s2 q' h1 h2
    simp [load, h1, h2]

/-- Witness for `composed_error_propagation` at concrete partition
operations: a failing public write makes `persist` return exactly that
error, and two succeeding reads make `load` return `Ok`. -/
theorem composed_error_propagation_witness :
    persist failingPublicWrite succeedingPrivateWrite 0 0 0 = Except.error 3 ∧
    load succeedingPublicRead succeedingPrivateRead 1 2 3 = Except.ok (6, 0, 0) :=
  ⟨((composed_error_propagation failingPublicWrite succeedingPrivateWrite
      succeedingPublicRead succeedingPrivateRead 0 0 0 0 0).1 3 rfl).1,
   (composed_error_propagation failingPublicWrite succeedingPrivateWrite
      succeedingPublicRead succeedingPrivateRead 1 0 0 2 3).2.2.2 4 0 6 0 rfl rfl⟩

/-- C1: the commit operation (modelled from the spec, since the
commit-state revision and every implementation are absent from `src/`)
takes an auxiliary input and returns the list of ids whose prior keys
are now unrecoverable — the pending-revocation set; for every manager
state with no pending updates, `commit` is a no-op on the state and
returns the empty list. -/
theorem RefManager.commit_returns_pending (m : RefManager) (aux : Nat) :
    (m.commit aux).1 = m.pending ∧
    (m.pending = [] → m.commit aux = ([], m)) := by
  constructor
  · rfl
  · intro h
    obtain ⟨ks, pd, c⟩ := m
    simp only [RefManager.commit]
    simp only at h
    subst h
    rfl

/-- Witness for `RefManager.commit_returns_pending`: a concrete manager
with an empty pending set is left unchanged by `commit`, which returns
the empty list. -/
theorem commit_returns_pending_witness :
    RefManager.commit ⟨[(1, 2)], [], 3⟩ 0 = ([], ⟨[(1, 2)], [], 3⟩) :=
  (RefManager.commit_returns_pending ⟨[(1, 2)], [], 3⟩ 0).2 rfl

/-- C2: `derive` (modelled from the spec, since the fallible revision
and every implementation are absent from `src/`) returns a
discriminated result — for every id never initialized it fails with
`UnknownId` rather than returning key material, and for every
initialized id it returns the current key. -/
theorem RefManager.derive_discriminates (m : RefManager) (id : Nat) :
    (lookupId id m.keys = none → m.derive id = Except.error RefError.unknownId) ∧
    ∀ k, lookupId id m.keys = some k → m.derive id = Except.ok (k, m) := by
  constructor
  · intro h
    simp [RefManager.derive, h]
  · intro k h
    simp [RefManager.derive, h]

/-- Witness for `RefManager.derive_discriminates`: on a concrete
manager knowing only id 1, deriving id 2 fails with `UnknownId` and
deriving id 1 returns its current key. -/
theorem derive_discriminates_witness :
    RefManager.derive ⟨[(1, 10)], [], 5⟩ 2 = Except.error RefError.unknownId ∧
    RefManager.derive ⟨[(1, 10)], [], 5⟩ 1 = Except.ok (10, ⟨[(1, 10)], [], 5⟩) :=
  ⟨(RefManager.derive_discriminates ⟨[(1, 10)], [], 5⟩ 2).1 rfl,
   (RefManager.derive_discriminates ⟨[(1, 10)], [], 5⟩ 1).2 10 rfl⟩

/-- C3: round-trip persistence for the reference manager (modelled from
the spec, since no implementation is under `src/`), composed through
the provided `persist` and `load` of `src/lib.rs`: persisting a manager
state to fresh locations and loading the persisted bytes into any
manager yields a manager observationally equivalent to the original —
`derive` returns identical results for every id and the
pending-revocation set is the same. -/
theorem RefManager.round_trip_persistence (m m0 : RefManager) :
    ∃ (pubBytes privBytes : List Nat) (m2 : RefManager),
      persist RefManager.persist_public_state RefManager.persist_private_state
        m [] [] = Except.ok (pubBytes, privBytes) ∧
      load RefManager.load_public_state RefManager.load_private_state
        m0 pubBytes privBytes = Except.ok (m2, [], []) ∧
      (∀ id, m2.derive id = m.derive id) ∧
      m2.pending = m.pending := by
  obtain ⟨ks, pd, c⟩ := m
  obtain ⟨ks0, pd0, c0⟩ := m0
  refine ⟨c :: pd, encodePairs ks, ⟨ks, pd, c⟩, ?_, ?_, fun id => rfl, rfl⟩
  · simp [persist, RefManager.persist_public_state, RefManager.persist_private_state]
  · simp [load, RefManager.load_public_state, RefManager.load_private_state,
      decodePairs_encodePairs]

/-- C7: update visibility for the reference manager (modelled from the
spec, since no implementation is under `src/`): on any manager whose
stored keys are all below the freshness counter, if `update(id)`
returns key `k2` then `derive(id)` on the resulting state returns `k2`,
and `k2` differs from whatever key `derive(id)` returned before the
update. -/
theorem RefManager.update_visibility (m : RefManager) (id k2 : Nat) (m' : RefManager)
    (hwf : ∀ p ∈ m.keys, p.2 < m.ctr)
    (h : m.update id = Except.ok (k2, m')) :
    m'.derive id = Except.ok (k2, m') ∧
    ∀ k1, m.derive id = Except.ok (k1, m) → k1 ≠ k2 := by
  cases hl : lookupId id m.keys with
  | none => simp [RefManager.update, hl] at h
  | some k0 =>
    simp only [RefManager.update, hl, Except.ok.injEq, Prod.mk.injEq] at h
    obtain ⟨hk2, hm'⟩ := h
    subst hk2
    subst hm'
    constructor
    · simp [RefManager.derive, lookupId_insertPair]
    · intro k1 hk1
      simp only [RefManager.derive, hl, Except.ok.injEq, Prod.mk.injEq] at hk1
      have hk10 : k0 = k1 := hk1.1
      subst hk10
      have hmem := lookupId_mem hl
      have hlt := hwf _ hmem
      simp only at hlt
      omega

/-- Witness for `RefManager.update_visibility`: on the concrete manager
holding key 0 for id 1 with counter 1, `update 1` returns key 1 and the
updated manager derives key 1 for id 1. -/
theorem update_visibility_witness :
    RefManager.derive ⟨[(1, 1)], [1], 2⟩ 1 = Except.ok (1, ⟨[(1, 1)], [1], 2⟩) :=
  (RefManager.update_visibility ⟨[(1, 0)], [], 1⟩ 1 1 ⟨[(1, 1)], [1], 2⟩
    (by decide) (by rfl)).1
